import Mathlib

/-!
Verification of the git-cleanup tool's core logic against its design
specification.  The Go source is shallowly embedded: each Go function that a
claim refers to is translated into an executable Lean definition (external
subprocess results become explicit parameters), and the claimed properties are
proved or refuted about those definitions.
-/

set_option maxRecDepth 4096

/-! ## String helpers mirroring the Go `strings` package -/

/-- `listHasPfx pat cs` is true when `pat` is an initial segment of `cs`
(character-list version of Go `strings.HasPrefix`). -/
def listHasPfx : List Char → List Char → Bool
  | [], _ => true
  | _ :: _, [] => false
  | p :: ps, c :: cs => p == c && listHasPfx ps cs

/-- `listContainsSub pat cs` is true when `pat` occurs contiguously inside `cs`
(character-list version of Go `strings.Contains`). -/
def listContainsSub (pat : List Char) : List Char → Bool
  | [] => listHasPfx pat []
  | c :: cs => listHasPfx pat (c :: cs) || listContainsSub pat cs

/-- Go `strings.HasPrefix s pre`. -/
def strHasPfx (pre s : String) : Bool :=
  listHasPfx pre.toList s.toList

/-- Go `strings.Contains s sub`. -/
def strContains (s sub : String) : Bool :=
  listContainsSub sub.toList s.toList

/-- Go `strings.TrimPrefix s pre`: drop `pre` from the front of `s` when it is
an initial segment, otherwise return `s` unchanged. -/
def dropLeading (s pre : String) : String :=
  if strHasPfx pre s then ⟨s.toList.drop pre.toList.length⟩ else s

/-- Go `strings.TrimSpace`: remove leading and trailing whitespace. -/
def trimSpace (s : String) : String :=
  ⟨((s.toList.dropWhile Char.isWhitespace).reverse.dropWhile Char.isWhitespace).reverse⟩

/-- Split a character list at every character satisfying `p`, keeping empty
segments (the shape shared by Go `strings.Split` and `strings.FieldsFunc`). -/
def splitListP (p : Char → Bool) : List Char → List (List Char)
  | [] => [[]]
  | c :: cs =>
    let rest := splitListP p cs
    if p c then [] :: rest
    else
      match rest with
      | r :: rs => (c :: r) :: rs
      | [] => [[c]]

/-- Go `strings.Split s "\n"`. -/
def splitLines (s : String) : List String :=
  (splitListP (fun c => c == '\n') s.toList).map (fun cs => ⟨cs⟩)

/-- Go `strings.Fields`: whitespace-separated fields, empty fields removed. -/
def fields (s : String) : List String :=
  ((splitListP Char.isWhitespace s.toList).filter (fun cs => !cs.isEmpty)).map
    (fun cs => ⟨cs⟩)

/-- Go `strings.Replace s old new 1`: replace the first occurrence of `old`
in `s` by `new`, if any. -/
def replaceFirst (s old new : String) : String :=
  let cs := s.toList
  let o := old.toList
  match (List.range (cs.length + 1)).find? (fun i => listHasPfx o (cs.drop i)) with
  | some i => ⟨cs.take i ++ new.toList ++ cs.drop (i + o.length)⟩
  | none => s

/-! ## Retrying executor (`shouldRetry` and `git` from the retry module)

The external command is abstracted as an oracle `run : Nat → AttemptResult`
giving the output and error of the `n`-th invocation.  The executor's
observable behaviour is the sequence of events it performs (invocations and
sleeps) together with the result it returns. -/

/-- The transient-error signatures hard-coded in `shouldRetry`, in source
order. -/
def retryablePatterns : List String :=
  ["cannot lock ref",
   "unable to update local ref",
   "refs/remotes/origin/",
   "is at .* but expected",
   "fatal: unable to access",
   "fatal: the remote end hung up unexpectedly",
   "fatal: early EOF",
   "fatal: index-pack failed",
   "fatal: pack-objects failed"]

/-- `shouldRetry err`: a nil error is never retried; a non-nil error is
retried when its message contains one of the fixed patterns (the Go code
tests each pattern with `strings.Contains`, i.e. literal containment). -/
def shouldRetry : Option String → Bool
  | none => false
  | some errStr => retryablePatterns.any (fun pat => strContains errStr pat)

/-- Result of one invocation of the external command: captured output and
optional error message (`none` models a nil Go error). -/
structure AttemptResult where
  output : String
  err : Option String
deriving DecidableEq

/-- Observable events of the retry loop. -/
inductive Ev where
  | invoke (attempt : Nat)
  | sleep (secs : Nat)
deriving DecidableEq

/-- The retry loop of `git`: `remaining` counts the iterations still allowed
by `attempt <= maxAttempts` (so `remaining = maxAttempts - attempt + 1` on
entry); `prev` is the result left in `output, err` from the previous
iteration, returned when the loop condition fails. -/
def gitLoop (run : Nat → AttemptResult) : Nat → Nat → AttemptResult → List Ev × AttemptResult
  | _, 0, prev => ([], prev)
  | attempt, remaining + 1, _ =>
    let r := run attempt
    if r.err.isNone || !shouldRetry r.err then
      ([Ev.invoke attempt], r)
    else if 0 < remaining then
      let rest := gitLoop run (attempt + 1) remaining r
      (Ev.invoke attempt :: Ev.sleep 2 :: rest.1, rest.2)
    else
      let rest := gitLoop run (attempt + 1) remaining r
      (Ev.invoke attempt :: rest.1, rest.2)

/-- The retrying executor `git` with `maxAttempts = 3`: event trace plus the
returned `(output, err)` pair. -/
def git (run : Nat → AttemptResult) : List Ev × AttemptResult :=
  gitLoop run 1 3 ⟨"", none⟩

/-- Number of command invocations recorded in a trace. -/
def invokeCount (tr : List Ev) : Nat :=
  (tr.filter (fun e => match e with | Ev.invoke _ => true | _ => false)).length

/-- The transient-error substrings enumerated by the specification: the seven
literal messages it lists plus the single "ref-state mismatch pattern"
(which appears in the source as the literal string `"is at .* but expected"`).
The source's additional pattern `"refs/remotes/origin/"` is absent here. -/
def specTransientSubstrings : List String :=
  ["cannot lock ref",
   "unable to update local ref",
   "fatal: unable to access",
   "fatal: the remote end hung up unexpectedly",
   "fatal: early EOF",
   "fatal: index-pack failed",
   "fatal: pack-objects failed",
   "is at .* but expected"]

lemma shouldRetry_err_ne_none {o : Option String} (h : shouldRetry o = true) :
    o.isNone = false := by
  cases o with
  | none => simp [shouldRetry] at h
  | some s => rfl

/-- C1: if the failures of the first two attempts match a transient signature,
the executor performs exactly three invocations with a single 2-second sleep
between consecutive invocations and none after the last, and returns the third
attempt's result whatever it is; moreover no oracle ever produces more than
three invocations. -/
theorem c1_retry_transient (run : Nat → AttemptResult)
    (h1 : shouldRetry (run 1).err = true) (h2 : shouldRetry (run 2).err = true) :
    git run = ([Ev.invoke 1, Ev.sleep 2, Ev.invoke 2, Ev.sleep 2, Ev.invoke 3], run 3)
      ∧ ∀ other : Nat → AttemptResult, invokeCount (git other).1 ≤ 3 := by
  constructor
  · have n1 : (run 1).err ≠ none := by
      intro hn; rw [hn] at h1; simp [shouldRetry] at h1
    have n2 : (run 2).err ≠ none := by
      intro hn; rw [hn] at h2; simp [shouldRetry] at h2
    unfold git gitLoop
    by_cases h3 : ((run 3).err.isNone || !shouldRetry (run 3).err) = true
    · simp [gitLoop, h1, h2, n1, n2, h3]
    · simp [gitLoop, h1, h2, n1, n2, h3]
  · intro other
    unfold git gitLoop
    by_cases g1 : ((other 1).err.isNone || !shouldRetry (other 1).err) = true
    · simp [g1, invokeCount]
    · by_cases g2 : ((other 2).err.isNone || !shouldRetry (other 2).err) = true
      · simp [g1, g2, gitLoop, invokeCount]
      · by_cases g3 : ((other 3).err.isNone || !shouldRetry (other 3).err) = true
        · simp [g1, g2, g3, gitLoop, invokeCount]
        · simp [g1, g2, g3, gitLoop, invokeCount]

/-- Witness for C1 at a concrete oracle whose attempts all fail with a
"cannot lock ref" message. -/
theorem c1_retry_transient_witness :
    git (fun _ => ⟨"", some "error: cannot lock ref 'refs/heads/x'"⟩)
      = ([Ev.invoke 1, Ev.sleep 2, Ev.invoke 2, Ev.sleep 2, Ev.invoke 3],
         ⟨"", some "error: cannot lock ref 'refs/heads/x'"⟩) :=
  (c1_retry_transient (fun _ => ⟨"", some "error: cannot lock ref 'refs/heads/x'"⟩)
    (by decide) (by decide)).1

/-- C2 counterexample: the message
`"couldn't find remote ref refs/remotes/origin/feature"` contains none of the
transient substrings the specification enumerates, yet the executor does not
stop after one attempt — the source additionally retries whenever the message
merely contains `"refs/remotes/origin/"`. -/
theorem c2_claim_counterexample :
    (specTransientSubstrings.all
        (fun pat => !strContains "couldn't find remote ref refs/remotes/origin/feature" pat)) = true
      ∧ (git (fun _ => ⟨"", some "couldn't find remote ref refs/remotes/origin/feature"⟩)).1
          ≠ [Ev.invoke 1] := by
  constructor
  · decide
  · decide

/-- C2 (amended): if the first attempt returns a nil error, or an error whose
message contains none of the nine patterns of the source's retry list (the
seven literal messages, the literal text `"is at .* but expected"`, and
`"refs/remotes/origin/"`), the executor returns after exactly one invocation,
with no sleep, yielding that attempt's result. -/
theorem c2_single_attempt (run : Nat → AttemptResult)
    (h : ∀ msg, (run 1).err = some msg →
        retryablePatterns.all (fun pat => !strContains msg pat) = true) :
    git run = ([Ev.invoke 1], run 1) := by
  have hsr : shouldRetry (run 1).err = false := by
    cases herr : (run 1).err with
    | none => simp [shouldRetry]
    | some msg =>
      have hall := h msg herr
      simp only [List.all_eq_true, Bool.not_eq_true'] at hall
      simp only [shouldRetry, List.any_eq_false]
      intro pat hpat
      simp [hall pat hpat]
  unfold git gitLoop
  simp [hsr]

/-- Witness for the amended C2 at an oracle whose first attempt succeeds. -/
theorem c2_single_attempt_witness :
    git (fun _ => ⟨"all good", none⟩) = ([Ev.invoke 1], ⟨"all good", none⟩) :=
  c2_single_attempt (fun _ => ⟨"all good", none⟩) (by decide)

/-! ## Output streamer

`addOutput` and the display computation of `updateDisplay` are embedded as
pure functions on the streamer's `lines` buffer.  `handleCompletion` is
embedded as the pair (final rendered state, printed error block); the terminal
colouring applied by the source is not part of the model, only the text.
The consumer loop of `Run` is modelled at the point where the operation has
finished (the worker has deposited the error in `errChan` and closed the
output channel) while lines are still buffered: each iteration of the Go
`select` has both cases ready, and the scheduler's choice is an explicit

parameter. -/

/-- Final rendered state of a streamer (`pass` or `fail`). -/
inductive RenderState where
  | success
  | failure
deriving DecidableEq

/-- `handleCompletion`: on a non-nil error the streamer fails and prints each
line of the message indented by two spaces; on a nil error it passes and
prints nothing. -/
def handleCompletion : Option String → RenderState × List String
  | some msg => (RenderState.failure, (splitLines msg).map (fun line => "  " ++ line))
  | none => (RenderState.success, [])

/-- `addOutput`: append a line to the buffer, ignoring empty lines. -/
def addOutput (lines : List String) (line : String) : List String :=
  if 0 < line.length then lines ++ [line] else lines

/-- The lines printed by `updateDisplay`: the buffer truncated to its last
`maxDisplayLines = 2` entries, empty lines skipped. -/
def displayView (lines : List String) : List String :=
  (if 2 < lines.length then lines.drop (lines.length - 2) else lines).filter
    (fun line => 0 < line.length)

/-- Resolution of one `select` iteration in `Run`'s consumer loop. -/
inductive Choice where
  | out
  | errc
deriving DecidableEq

/-- The consumer loop of `Run` after the operation finished: `buf` holds the
lines still buffered in the closed output channel, the error is available in
`errChan`, so both `select` cases are ready at every iteration and `sched`
decides which one fires.  Returns the lines that reach the display before the
loop terminates.  Choosing `out` on an empty closed channel, or choosing
`errc` at any point, runs `handleCompletion` and returns. -/
def consumeAfterFinish : List Choice → List String → List String
  | [], _ => []
  | Choice.out :: rest, line :: buffered => line :: consumeAfterFinish rest buffered
  | Choice.out :: _, [] => []
  | Choice.errc :: _, _ => []

/-- C3 (divergence exhibit): with one line still buffered when the finished
signal is available, the schedule that resolves the `select` toward `errChan`
terminates the consumer without delivering the line, while the schedule that
keeps draining the output channel delivers it.  The specification requires
every buffered line to be delivered, which fails on the first schedule. -/
theorem c3_buffered_line_dropped :
    consumeAfterFinish [Choice.errc] ["Receiving objects: 100%"] = []
      ∧ consumeAfterFinish [Choice.out, Choice.out] ["Receiving objects: 100%"]
          = ["Receiving objects: 100%"] := by
  constructor
  · rfl
  · rfl

/-- C4: the streamer finalizes in the success state with an empty error block
exactly when the operation's error is nil; on error `msg` it finalizes in the
failure state and every line of `msg` (split on newlines) appears,
two-space-indented, in the printed block. -/
theorem c4_completion_states (err : Option String) :
    ((handleCompletion err).1 = RenderState.success ∧ (handleCompletion err).2 = []
        ↔ err = none)
      ∧ ∀ msg, err = some msg →
          (handleCompletion err).1 = RenderState.failure
            ∧ ∀ line ∈ splitLines msg, ("  " ++ line) ∈ (handleCompletion err).2 := by
  constructor
  · cases err with
    | none => simp [handleCompletion]
    | some msg => simp [handleCompletion]
  · intro msg hmsg
    subst hmsg
    refine ⟨rfl, ?_⟩
    intro line hline
    simp only [handleCompletion]
    exact List.mem_map_of_mem _ hline

/-- Witness for C4 at the concrete error message `"fatal: oops\nhint: pull"`. -/
theorem c4_completion_states_witness :
    (handleCompletion (some "fatal: oops\nhint: pull")).1 = RenderState.failure
      ∧ ("  " ++ "hint: pull") ∈ (handleCompletion (some "fatal: oops\nhint: pull")).2 :=
  ⟨((c4_completion_states (some "fatal: oops\nhint: pull")).2 "fatal: oops\nhint: pull" rfl).1,
   ((c4_completion_states (some "fatal: oops\nhint: pull")).2 "fatal: oops\nhint: pull" rfl).2
     "hint: pull" (by decide)⟩

lemma addOutput_foldl (adds : List String) :
    ∀ init : List String,
      adds.foldl addOutput init = init ++ adds.filter (fun line => 0 < line.length) := by
  induction adds with
  | nil => intro init; simp
  | cons a rest ih =>
    intro init
    by_cases ha : 0 < a.length
    · simp [addOutput, ha, List.filter_cons, ih]
    · simp [addOutput, ha, List.filter_cons, ih]

/-- C5: starting from the empty buffer, after any sequence of `addOutput`
calls the buffer holds exactly the nonempty added lines in arrival order, the
rendered view is a suffix of the buffer (the most recent lines, in order), and
its size is `min (buffer size) 2`, hence never more than 2. -/
theorem c5_display_recent_bounded (adds : List String) :
    (displayView (adds.foldl addOutput [])).length = min (adds.foldl addOutput []).length 2
      ∧ displayView (adds.foldl addOutput []) <:+ adds.foldl addOutput []
      ∧ adds.foldl addOutput [] = adds.filter (fun line => 0 < line.length) := by
  have hbuf : adds.foldl addOutput [] = adds.filter (fun line => 0 < line.length) := by
    simpa using addOutput_foldl adds []
  have hpos : ∀ line ∈ adds.foldl addOutput [], decide (0 < line.length) = true := by
    intro line hline
    rw [hbuf] at hline
    exact (List.mem_filter.mp hline).2
  refine ⟨?_, ?_, hbuf⟩
  · unfold displayView
    by_cases hlen : 2 < (adds.foldl addOutput []).length
    · rw [if_pos hlen, List.filter_eq_self.mpr ?_]
      · rw [List.length_drop]
        omega
      · intro line hline
        exact hpos line (List.drop_subset _ _ hline)
    · rw [if_neg hlen, List.filter_eq_self.mpr hpos]
      omega
  · unfold displayView
    by_cases hlen : 2 < (adds.foldl addOutput []).length
    · rw [if_pos hlen, List.filter_eq_self.mpr ?_]
      · exact List.drop_suffix _ _
      · intro line hline
        exact hpos line (List.drop_subset _ _ hline)
    · rw [if_neg hlen, List.filter_eq_self.mpr hpos]

/-! ## Branch classification (`getDeletedBranches`)

The output of `git branch -vv` is abstracted as the list of its lines.  The
regular-expression test `origin/.*: gone\]` is embedded by its matching
semantics: some occurrence of `origin/` is followed, after any characters
other than a newline, by an occurrence of `: gone]`. -/

/-- Semantics of `regexp.MustCompile("origin/.*: gone\\]").MatchString line`:
an occurrence of `"origin/"` at some position `i`, then `k` characters none of
which is a newline, then an occurrence of `": gone]"`. -/
def goneMatch (line : String) : Bool :=
  let cs := line.toList
  (List.range (cs.length + 1)).any (fun i =>
    listHasPfx "origin/".toList (cs.drop i) &&
      (List.range (cs.length + 1)).any (fun k =>
        ((cs.drop (i + 7)).take k).all (fun c => c != '\n') &&
          listHasPfx ": gone]".toList (cs.drop (i + 7 + k))))

/-- `getDeletedBranches` on the lines of `git branch -vv`: each matching line
contributes its first whitespace-separated field to the deleted-branch list,
and additionally its second field to the worktree-branch list when the line
starts with `"+"` and has at least two fields. -/
def getDeletedBranches (lines : List String) : List String × List String :=
  lines.foldl
    (fun acc line =>
      if goneMatch line then
        let parts := fields line
        let branches := if 0 < parts.length then acc.1 ++ [parts.getD 0 ""] else acc.1
        let worktreeBranches :=
          if strHasPfx "+" line && 2 ≤ parts.length then acc.2 ++ [parts.getD 1 ""]
          else acc.2
        (branches, worktreeBranches)
      else acc)
    ([], [])

/-- C6 at the three sample lines: the plain gone line yields deleted branch
`feature-x` and no worktree branch, and the line without a gone marker yields
nothing, as claimed; but the `+`-prefixed gone line yields the deleted branch
`"+"` (its first whitespace field) rather than `feature-y`, together with the
worktree branch `feature-y`. -/
theorem c6_gone_classification :
    getDeletedBranches ["  feature-x  abc123 [origin/feature-x: gone] msg"]
        = (["feature-x"], [])
      ∧ getDeletedBranches ["+ feature-y  def456 [origin/feature-y: gone] msg"]
          = (["+"], ["feature-y"])
      ∧ getDeletedBranches ["  main       789abc [origin/main] msg"] = ([], []) := by
  refine ⟨?_, ?_, ?_⟩
  · decide
  · decide
  · decide

/-! ## Default-branch resolution (`getDefaultBranch`)

The three resolution methods (`symbolic-ref`, `rev-parse`, `config`) are
abstracted as the list of their outcomes, in order: `none` models a failing
command, `some out` models success with raw output `out`. -/

/-- The prefix-stripping pipeline applied to a method's raw output: trim
whitespace, then drop `refs/heads/`, `refs/remotes/`, `origin/` in that
order. -/
def stripBranchName (out : String) : String :=
  dropLeading (dropLeading (dropLeading (trimSpace out) "refs/heads/") "refs/remotes/") "origin/"

/-- `getDefaultBranch` over the ordered method outcomes: the first method that
succeeds with a nonempty stripped result wins; otherwise resolution falls
through, and when the methods are exhausted the fixed error is returned. -/
def getDefaultBranch : List (Option String) → Except String String
  | [] => Except.error "failed to get default branch"
  | none :: rest => getDefaultBranch rest
  | some out :: rest =>
    let result := stripBranchName out
    if result ≠ "" then Except.ok result else getDefaultBranch rest

/-- Specification-side view of one method: the stripped output when the
method succeeded and stripping is nonempty, otherwise nothing. -/
def methodResult (r : Option String) : Option String :=
  r.bind (fun out =>
    let result := stripBranchName out
    if result = "" then none else some result)

/-- C7: `getDefaultBranch` returns the first method outcome that survives
stripping, and the error `"failed to get default branch"` when no method
does. -/
theorem c7_default_branch_first_success (results : List (Option String)) :
    getDefaultBranch results =
      match (results.filterMap methodResult).head? with
      | some branch => Except.ok branch
      | none => Except.error "failed to get default branch" := by
  induction results with
  | nil => rfl
  | cons r rest ih =>
    cases r with
    | none => simpa [getDefaultBranch, methodResult] using ih
    | some out =>
      by_cases h : stripBranchName out = ""
      · simpa [getDefaultBranch, methodResult, h] using ih
      · simp [getDefaultBranch, methodResult, h]

/-! ## Worktree lookup (`getWorktreePath`)

The porcelain output of `git worktree list` is abstracted as its list of
lines.  The scanner keeps the path of the most recent `worktree ` line and
stops at the first `branch ` line containing `refs/heads/<branch>` as a
substring. -/

/-- The test applied to a `branch ` line: the line starts with `"branch "`
and contains `"refs/heads/" ++ branch` anywhere (plain substring containment,
so a branch name that is a prefix of another branch's name also matches that
other branch's line). -/
def branchLineHit (branch line : String) : Bool :=
  strHasPfx "branch " line && strContains line ("refs/heads/" ++ branch)

/-- The scanning loop of `getWorktreePath`: `cur` is the `worktreePath`
variable (initially the empty string). -/
def getWorktreePathGo (branch : String) : List String → String → Except String String
  | [], _ => Except.error ("worktree not found for branch " ++ branch)
  | line :: rest, cur =>
    if strHasPfx "worktree " line then
      getWorktreePathGo branch rest (dropLeading line "worktree ")
    else if strHasPfx "branch " line then
      if strContains line ("refs/heads/" ++ branch) then Except.ok cur
      else getWorktreePathGo branch rest cur
    else getWorktreePathGo branch rest cur

/-- `getWorktreePath` over the porcelain lines. -/
def getWorktreePath (branch : String) (lines : List String) : Except String String :=
  getWorktreePathGo branch lines ""

/-- Index of the first `branch ` line matching the branch, if any. -/
def firstHit (branch : String) : List String → Option Nat
  | [] => none
  | line :: rest =>
    if branchLineHit branch line then some 0
    else (firstHit branch rest).map (fun i => i + 1)

/-- The path recorded by the most recent `worktree ` line of `pre`, defaulting
to `dflt` when `pre` has none. -/
def wtLast (dflt : String) (pre : List String) : String :=
  match (pre.filter (fun line => strHasPfx "worktree " line)).getLast? with
  | some line => dropLeading line "worktree "
  | none => dflt

/-- The claim's description of `getWorktreePath`: the path of the most recent
`worktree ` line preceding the first matching `branch ` line, or the
`worktree not found` error when no `branch ` line matches. -/
def worktreePathSpec (branch : String) (lines : List String) : Except String String :=
  match firstHit branch lines with
  | none => Except.error ("worktree not found for branch " ++ branch)
  | some i => Except.ok (wtLast "" (lines.take i))

lemma listHasPfx_head_ne {a b : Char} (hab : a ≠ b) {ps qs cs : List Char}
    (h : listHasPfx (a :: ps) cs = true) : listHasPfx (b :: qs) cs = false := by
  cases cs with
  | nil => simp [listHasPfx] at h
  | cons c rest =>
    simp only [listHasPfx, Bool.and_eq_true, beq_iff_eq] at h
    simp only [listHasPfx, Bool.and_eq_false_iff]
    left
    rw [← h.1]
    simp [Ne.symm hab]

lemma wt_not_branch {line : String} (h : strHasPfx "worktree " line = true) :
    strHasPfx "branch " line = false :=
  listHasPfx_head_ne (by decide) h

lemma getLast?_cons_ne_none {α : Type} (x : α) (xs : List α) :
    (x :: xs).getLast? ≠ none := by
  induction xs generalizing x with
  | nil => simp
  | cons y ys ih => rw [List.getLast?_cons_cons]; exact ih y

lemma wtLast_cons_wt {line : String} (h : strHasPfx "worktree " line = true)
    (dflt : String) (pre : List String) :
    wtLast dflt (line :: pre) = wtLast (dropLeading line "worktree ") pre := by
  unfold wtLast
  simp only [List.filter_cons, h, if_true]
  cases hf : pre.filter (fun l => strHasPfx "worktree " l) with
  | nil => simp
  | cons x xs =>
    simp only [List.getLast?_cons_cons]
    cases hg : (x :: xs).getLast? with
    | none => exact absurd hg (getLast?_cons_ne_none x xs)
    | some y => rfl

lemma wtLast_cons_other {line : String} (h : strHasPfx "worktree " line = false)
    (dflt : String) (pre : List String) :
    wtLast dflt (line :: pre) = wtLast dflt pre := by
  unfold wtLast
  simp only [List.filter_cons, h]
  simp

lemma getWorktreePathGo_spec (branch : String) :
    ∀ (lines : List String) (cur : String),
      getWorktreePathGo branch lines cur =
        match firstHit branch lines with
        | none => Except.error ("worktree not found for branch " ++ branch)
        | some i => Except.ok (wtLast cur (lines.take i)) := by
  intro lines
  induction lines with
  | nil => intro cur; rfl
  | cons line rest ih =>
    intro cur
    by_cases hwt : strHasPfx "worktree " line = true
    · have hbr : branchLineHit branch line = false := by
        simp [branchLineHit, wt_not_branch hwt]
      cases hf : firstHit branch rest with
      | none => simp [getWorktreePathGo, hwt, firstHit, hbr, hf, ih]
      | some i =>
        simp [getWorktreePathGo, hwt, firstHit, hbr, hf, ih, wtLast_cons_wt hwt]
    · have hwtf : strHasPfx "worktree " line = false := by simpa using hwt
      by_cases hbr : strHasPfx "branch " line = true
      · by_cases hct : strContains line ("refs/heads/" ++ branch) = true
        · have hhit : branchLineHit branch line = true := by
            simp [branchLineHit, hbr, hct]
          simp [getWorktreePathGo, hwt, hbr, hct, firstHit, hhit, wtLast]
        · have hhit : branchLineHit branch line = false := by
            simp [branchLineHit, hct]
          cases hf : firstHit branch rest with
          | none =>
            simp [getWorktreePathGo, hwt, hbr, hct, firstHit, hhit, hf, ih]
          | some i =>
            simp [getWorktreePathGo, hwt, hbr, hct, firstHit, hhit, hf, ih,
              wtLast_cons_other hwtf]
      · have hhit : branchLineHit branch line = false := by
          simp [branchLineHit, hbr]
        cases hf : firstHit branch rest with
        | none => simp [getWorktreePathGo, hwt, hbr, firstHit, hhit, hf, ih]
        | some i =>
          simp [getWorktreePathGo, hwt, hbr, firstHit, hhit, hf, ih,
            wtLast_cons_other hwtf]

lemma firstHit_eq_none_iff (branch : String) (lines : List String) :
    firstHit branch lines = none ↔ ∀ line ∈ lines, branchLineHit branch line = false := by
  induction lines with
  | nil => simp [firstHit]
  | cons line rest ih =>
    by_cases h : branchLineHit branch line = true
    · simp [firstHit, h]
    · simp only [Bool.not_eq_true] at h
      simp [firstHit, h, ih]

/-- C9: `getWorktreePath` agrees with its substring-containment description.
First conjunct: it equals `worktreePathSpec`, the function built from the
claim's words (`firstHit` is the index of the first `branch ` line containing
`refs/heads/<branch>` as a plain substring — so a branch name that is a
prefix of another worktree's branch name matches that other entry — and
`wtLast` reads the most recent preceding `worktree ` line via
`filter`/`getLast?`).  Second conjunct: the
`worktree not found for branch <branch>` error is returned exactly when no
`branch ` line contains that substring.  Third conjunct: whenever some
`branch ` line does match, at first index `i`, the result is the path of the
most recent `worktree ` line among the first `i` lines. -/
theorem c9_worktree_path_by_containment (branch : String) (lines : List String) :
    getWorktreePath branch lines = worktreePathSpec branch lines
      ∧ (getWorktreePath branch lines
            = Except.error ("worktree not found for branch " ++ branch)
          ↔ ∀ line ∈ lines, branchLineHit branch line = false)
      ∧ ∀ i, firstHit branch lines = some i →
          getWorktreePath branch lines = Except.ok (wtLast "" (lines.take i)) := by
  have hspec : getWorktreePath branch lines = worktreePathSpec branch lines := by
    unfold getWorktreePath worktreePathSpec
    exact getWorktreePathGo_spec branch lines ""
  refine ⟨hspec, ?_, ?_⟩
  · rw [hspec]
    unfold worktreePathSpec
    rw [← firstHit_eq_none_iff]
    cases hf : firstHit branch lines with
    | none => simp
    | some i => simp
  · intro i hi
    rw [hspec]
    unfold worktreePathSpec
    rw [hi]

/-- Witness for C9: the branch `feat` is a proper prefix of `feature`, and by
substring containment the lookup returns the `feature` worktree's path, which
is the most recent `worktree ` line before the matching `branch ` line at
index 1. -/
theorem c9_worktree_path_witness :
    getWorktreePath "feat" ["worktree /repos/web-feature", "branch refs/heads/feature"]
        = worktreePathSpec "feat" ["worktree /repos/web-feature", "branch refs/heads/feature"]
      ∧ getWorktreePath "feat" ["worktree /repos/web-feature", "branch refs/heads/feature"]
          = Except.ok (wtLast ""
              (["worktree /repos/web-feature", "branch refs/heads/feature"].take 1))
      ∧ getWorktreePath "feat" ["worktree /repos/web-feature", "branch refs/heads/feature"]
          = Except.ok "/repos/web-feature" :=
  ⟨(c9_worktree_path_by_containment "feat"
      ["worktree /repos/web-feature", "branch refs/heads/feature"]).1,
   (c9_worktree_path_by_containment "feat"
      ["worktree /repos/web-feature", "branch refs/heads/feature"]).2.2 1 (by rfl),
   by rfl⟩

/-! ## The cleanup run (`cleanup`)

The subprocess-backed steps are abstracted as an environment of outcomes.
`cleanup` mirrors the source control flow: the sequential setup phase aborts
on the first failure, while the two per-item loops report failures and
continue.  Besides the returned error, the model records the printed lines
and the external operations performed, in order. -/

/-- External operations performed during a cleanup run. -/
inductive Step where
  | checkoutOp
  | pullOp
  | fetchPruneOp
  | listBranchesOp
  | worktreePathOp (branch : String)
  | resetOp (path : String)
  | deleteOp (branch : String)
deriving DecidableEq

/-- Outcomes of the external commands consulted by `cleanup`.  Setup steps
are single outcomes; per-item steps are outcome functions.  `homeDir` stands
for `os.UserHomeDir` (empty on failure, as in the source). -/
structure CleanupEnv where
  defaultBranch : Except String String
  currentBranch : Except String String
  checkout : Except String Unit
  pull : Except String Unit
  fetchPrune : Except String Unit
  deletedBranches : Except String (List String × List String)
  worktreePath : String → Except String String
  resetWorktree : String → Except String Unit
  deleteBranch : String → Except String Unit
  homeDir : String

/-- Observable result of a cleanup run. -/
structure CleanupOut where
  result : Except String Unit
  printed : List String
  ops : List Step

/-- One iteration of the worktree-reset loop: find the worktree path (failure
reported, item skipped), then reset it (failure reported, item skipped). -/
def resetStep (env : CleanupEnv) (branch : String) : List String × List Step :=
  match env.worktreePath branch with
  | Except.error e =>
    (["Error finding worktree for branch " ++ branch ++ ": " ++ e],
     [Step.worktreePathOp branch])
  | Except.ok path =>
    let rel := replaceFirst path env.homeDir "~"
    match env.resetWorktree path with
    | Except.error e =>
      (["Error resetting worktree " ++ rel ++ ": " ++ e],
       [Step.worktreePathOp branch, Step.resetOp path])
    | Except.ok _ =>
      (["✔ Reset worktree: " ++ rel],
       [Step.worktreePathOp branch, Step.resetOp path])

/-- One iteration of the branch-deletion loop: failure is reported and the
loop moves on. -/
def deleteStep (env : CleanupEnv) (branch : String) : List String × List Step :=
  match env.deleteBranch branch with
  | Except.error e =>
    (["Error deleting branch " ++ branch ++ ": " ++ e], [Step.deleteOp branch])
  | Except.ok _ =>
    (["✔ Deleted branch: " ++ branch], [Step.deleteOp branch])

/-- The `cleanup` run over an environment of command outcomes. -/
def cleanup (env : CleanupEnv) : CleanupOut :=
  match env.defaultBranch with
  | Except.error e => ⟨Except.error ("failed to get default branch: " ++ e), [], []⟩
  | Except.ok defaultBranch =>
    match env.currentBranch with
    | Except.error e => ⟨Except.error ("failed to get current branch: " ++ e), [], []⟩
    | Except.ok currentBranch =>
      let co : Except String Unit × List String × List Step :=
        if currentBranch ≠ defaultBranch then
          match env.checkout with
          | Except.error e =>
            (Except.error ("error checking out default branch: " ++ e), [],
             [Step.checkoutOp])
          | Except.ok _ =>
            (Except.ok (), ["✔ Checked out default branch: " ++ defaultBranch],
             [Step.checkoutOp])
        else (Except.ok (), [], [])
      match co.1 with
      | Except.error e => ⟨Except.error e, co.2.1, co.2.2⟩
      | Except.ok _ =>
        match env.pull with
        | Except.error e =>
          ⟨Except.error ("error pulling latest changes: " ++ e), co.2.1,
           co.2.2 ++ [Step.pullOp]⟩
        | Except.ok _ =>
          let printed1 := co.2.1 ++ ["✔ Pulled latest changes from " ++ defaultBranch]
          let ops1 := co.2.2 ++ [Step.pullOp]
          match env.fetchPrune with
          | Except.error e =>
            ⟨Except.error ("error pruning branches: " ++ e), printed1,
             ops1 ++ [Step.fetchPruneOp]⟩
          | Except.ok _ =>
            let printed2 := printed1 ++ ["✔ Pruned local branches"]
            let ops2 := ops1 ++ [Step.fetchPruneOp]
            match env.deletedBranches with
            | Except.error e =>
              ⟨Except.error ("error getting deleted branches: " ++ e), printed2,
               ops2 ++ [Step.listBranchesOp]⟩
            | Except.ok branchLists =>
              ⟨Except.ok (),
               printed2
                 ++ (branchLists.2.map (fun b => (resetStep env b).1)).flatten
                 ++ (branchLists.1.map (fun b => (deleteStep env b).1)).flatten
                 ++ ["✔ Git cleanup completed"],
               ops2 ++ [Step.listBranchesOp]
                 ++ (branchLists.2.map (fun b => (resetStep env b).2)).flatten
                 ++ (branchLists.1.map (fun b => (deleteStep env b).2)).flatten⟩

/-- The setup phase succeeds: default and current branch resolve, checkout
succeeds whenever it is needed, pull and fetch-prune succeed, and the branch
listing parses. -/
def setupOk (env : CleanupEnv) : Prop :=
  ∃ d c, env.defaultBranch = Except.ok d ∧ env.currentBranch = Except.ok c
    ∧ (c ≠ d → env.checkout = Except.ok ())
    ∧ env.pull = Except.ok () ∧ env.fetchPrune = Except.ok ()
    ∧ ∃ bs, env.deletedBranches = Except.ok bs

lemma resetStep_mem (env : CleanupEnv) (b : String) :
    Step.worktreePathOp b ∈ (resetStep env b).2 := by
  unfold resetStep
  rcases env.worktreePath b with e | p
  · simp
  · cases h2 : env.resetWorktree p with
    | error e => simp [h2]
    | ok u => simp [h2]

lemma deleteStep_mem (env : CleanupEnv) (b : String) :
    Step.deleteOp b ∈ (deleteStep env b).2 := by
  unfold deleteStep
  rcases env.deleteBranch b with e | u <;> simp

lemma deleteStep_printed {env : CleanupEnv} {b e : String}
    (h : env.deleteBranch b = Except.error e) :
    ("Error deleting branch " ++ b ++ ": " ++ e) ∈ (deleteStep env b).1 := by
  unfold deleteStep
  rw [h]
  simp

lemma resetStep_printed_find {env : CleanupEnv} {b e : String}
    (h : env.worktreePath b = Except.error e) :
    ("Error finding worktree for branch " ++ b ++ ": " ++ e) ∈ (resetStep env b).1 := by
  unfold resetStep
  rw [h]
  simp

lemma resetStep_printed_reset {env : CleanupEnv} {b q e : String}
    (h1 : env.worktreePath b = Except.ok q) (h2 : env.resetWorktree q = Except.error e) :
    ("Error resetting worktree " ++ replaceFirst q env.homeDir "~" ++ ": " ++ e)
      ∈ (resetStep env b).1 := by
  unfold resetStep
  rw [h1]
  simp [h2]

lemma resetStep_no_checkout (env : CleanupEnv) (b : String) :
    Step.checkoutOp ∉ (resetStep env b).2 := by
  unfold resetStep
  rcases env.worktreePath b with e | p
  · simp
  · cases h2 : env.resetWorktree p with
    | error e => simp [h2]
    | ok u => simp [h2]

lemma deleteStep_no_checkout (env : CleanupEnv) (b : String) :
    Step.checkoutOp ∉ (deleteStep env b).2 := by
  unfold deleteStep
  rcases env.deleteBranch b with e | u <;> simp

/-- C8: the cleanup run returns without error exactly when the sequential
setup phase succeeds — per-item outcomes play no part in the result — and
under a successful setup every deleted worktree branch and every deleted
branch is still attended to (its lookup or deletion is performed), with every
per-item failure reported in the printed output rather than aborting the run:
a failed branch deletion, a failed worktree lookup, and a failed worktree
reset each leave their error line. -/
theorem c8_setup_fatal_items_isolated (env : CleanupEnv) :
    ((cleanup env).result = Except.ok () ↔ setupOk env)
      ∧ (setupOk env → ∀ bs, env.deletedBranches = Except.ok bs →
          (∀ b ∈ bs.2, Step.worktreePathOp b ∈ (cleanup env).ops)
            ∧ (∀ b ∈ bs.1, Step.deleteOp b ∈ (cleanup env).ops)
            ∧ (∀ b ∈ bs.1, ∀ e, env.deleteBranch b = Except.error e →
                ("Error deleting branch " ++ b ++ ": " ++ e) ∈ (cleanup env).printed)
            ∧ (∀ b ∈ bs.2, ∀ e, env.worktreePath b = Except.error e →
                ("Error finding worktree for branch " ++ b ++ ": " ++ e)
                  ∈ (cleanup env).printed)
            ∧ ∀ b ∈ bs.2, ∀ q, env.worktreePath b = Except.ok q →
                ∀ e, env.resetWorktree q = Except.error e →
                  ("Error resetting worktree " ++ replaceFirst q env.homeDir "~" ++ ": " ++ e)
                    ∈ (cleanup env).printed) := by
  rcases hdb : env.defaultBranch with e | d
  · constructor
    · simp [cleanup, hdb, setupOk]
    · rintro ⟨d, c, hd, -⟩
      rw [hdb] at hd
      exact Except.noConfusion hd
  rcases hcb : env.currentBranch with e | c
  · constructor
    · simp [cleanup, hdb, hcb, setupOk]
    · rintro ⟨d', c', hd, hc, -⟩
      rw [hcb] at hc
      exact Except.noConfusion hc
  by_cases hcd : c = d
  · -- no checkout step
    rcases hp : env.pull with e | u
    · constructor
      · simp [cleanup, hdb, hcb, hcd, hp, setupOk]
      · rintro ⟨d', c', hd, hc, -, hpull, -⟩
        rw [hp] at hpull
        exact Except.noConfusion hpull
    rcases hf : env.fetchPrune with e | u
    · constructor
      · simp [cleanup, hdb, hcb, hcd, hp, hf, setupOk]
      · rintro ⟨d', c', hd, hc, -, -, hfp, -⟩
        rw [hf] at hfp
        exact Except.noConfusion hfp
    rcases hdl : env.deletedBranches with e | bs
    · constructor
      · simp [cleanup, hdb, hcb, hcd, hp, hf, hdl, setupOk]
      · rintro ⟨d', c', hd, hc, -, -, -, bs, hbs⟩
        rw [hdl] at hbs
        exact Except.noConfusion hbs
    · constructor
      · constructor
        · intro _
          exact ⟨d, c, hdb, hcb, fun h => absurd hcd h, hp, hf, bs, hdl⟩
        · intro _
          simp [cleanup, hdb, hcb, hcd, hp, hf, hdl]
      · intro _ bs' hbs'
        cases hbs'
        refine ⟨fun b hb => ?_, fun b hb => ?_, fun b hb e he => ?_,
          fun b hb e he => ?_, fun b hb q hq e he => ?_⟩
        · have hm : Step.worktreePathOp b
              ∈ (bs.2.map (fun x => (resetStep env x).2)).flatten :=
            List.mem_flatten.mpr ⟨_, List.mem_map_of_mem _ hb, resetStep_mem env b⟩
          simp [cleanup, hdb, hcb, hcd, hp, hf, hdl, List.mem_append, hm]
        · have hm : Step.deleteOp b
              ∈ (bs.1.map (fun x => (deleteStep env x).2)).flatten :=
            List.mem_flatten.mpr ⟨_, List.mem_map_of_mem _ hb, deleteStep_mem env b⟩
          simp [cleanup, hdb, hcb, hcd, hp, hf, hdl, List.mem_append, hm]
        · have hm : ("Error deleting branch " ++ b ++ ": " ++ e)
              ∈ (bs.1.map (fun x => (deleteStep env x).1)).flatten :=
            List.mem_flatten.mpr ⟨_, List.mem_map_of_mem _ hb, deleteStep_printed he⟩
          simp [cleanup, hdb, hcb, hcd, hp, hf, hdl, List.mem_append, hm]
        · have hm : ("Error finding worktree for branch " ++ b ++ ": " ++ e)
              ∈ (bs.2.map (fun x => (resetStep env x).1)).flatten :=
            List.mem_flatten.mpr ⟨_, List.mem_map_of_mem _ hb, resetStep_printed_find he⟩
          simp [cleanup, hdb, hcb, hcd, hp, hf, hdl, List.mem_append, hm]
        · have hm : ("Error resetting worktree " ++ replaceFirst q env.homeDir "~" ++ ": " ++ e)
              ∈ (bs.2.map (fun x => (resetStep env x).1)).flatten :=
            List.mem_flatten.mpr ⟨_, List.mem_map_of_mem _ hb, resetStep_printed_reset hq he⟩
          simp [cleanup, hdb, hcb, hcd, hp, hf, hdl, List.mem_append, hm]
  · -- checkout step runs
    rcases hco : env.checkout with e | u
    · constructor
      · constructor
        · intro hres
          exfalso
          simp [cleanup, hdb, hcb, hcd, hco] at hres
        · rintro ⟨d', c', hd, hc, hch, -⟩
          rw [hdb] at hd
          rw [hcb] at hc
          cases hd
          cases hc
          have := hch hcd
          rw [hco] at this
          exact Except.noConfusion this
      · rintro ⟨d', c', hd, hc, hch, -⟩
        rw [hdb] at hd
        rw [hcb] at hc
        cases hd
        cases hc
        have := hch hcd
        rw [hco] at this
        exact Except.noConfusion this
    rcases hp : env.pull with e | u'
    · constructor
      · simp [cleanup, hdb, hcb, hcd, hco, hp, setupOk]
      · rintro ⟨d', c', hd, hc, -, hpull, -⟩
        rw [hp] at hpull
        exact Except.noConfusion hpull
    rcases hf : env.fetchPrune with e | u'
    · constructor
      · simp [cleanup, hdb, hcb, hcd, hco, hp, hf, setupOk]
      · rintro ⟨d', c', hd, hc, -, -, hfp, -⟩
        rw [hf] at hfp
        exact Except.noConfusion hfp
    rcases hdl : env.deletedBranches with e | bs
    · constructor
      · simp [cleanup, hdb, hcb, hcd, hco, hp, hf, hdl, setupOk]
      · rintro ⟨d', c', hd, hc, -, -, -, bs, hbs⟩
        rw [hdl] at hbs
        exact Except.noConfusion hbs
    · constructor
      · constructor
        · intro _
          exact ⟨d, c, hdb, hcb, fun _ => hco, hp, hf, bs, hdl⟩
        · intro _
          simp [cleanup, hdb, hcb, hcd, hco, hp, hf, hdl]
      · intro _ bs' hbs'
        cases hbs'
        refine ⟨fun b hb => ?_, fun b hb => ?_, fun b hb e he => ?_,
          fun b hb e he => ?_, fun b hb q hq e he => ?_⟩
        · have hm : Step.worktreePathOp b
              ∈ (bs.2.map (fun x => (resetStep env x).2)).flatten :=
            List.mem_flatten.mpr ⟨_, List.mem_map_of_mem _ hb, resetStep_mem env b⟩
          simp [cleanup, hdb, hcb, hcd, hco, hp, hf, hdl, List.mem_append, hm]
        · have hm : Step.deleteOp b
              ∈ (bs.1.map (fun x => (deleteStep env x).2)).flatten :=
            List.mem_flatten.mpr ⟨_, List.mem_map_of_mem _ hb, deleteStep_mem env b⟩
          simp [cleanup, hdb, hcb, hcd, hco, hp, hf, hdl, List.mem_append, hm]
        · have hm : ("Error deleting branch " ++ b ++ ": " ++ e)
              ∈ (bs.1.map (fun x => (deleteStep env x).1)).flatten :=
            List.mem_flatten.mpr ⟨_, List.mem_map_of_mem _ hb, deleteStep_printed he⟩
          simp [cleanup, hdb, hcb, hcd, hco, hp, hf, hdl, List.mem_append, hm]
        · have hm : ("Error finding worktree for branch " ++ b ++ ": " ++ e)
              ∈ (bs.2.map (fun x => (resetStep env x).1)).flatten :=
            List.mem_flatten.mpr ⟨_, List.mem_map_of_mem _ hb, resetStep_printed_find he⟩
          simp [cleanup, hdb, hcb, hcd, hco, hp, hf, hdl, List.mem_append, hm]
        · have hm : ("Error resetting worktree " ++ replaceFirst q env.homeDir "~" ++ ": " ++ e)
              ∈ (bs.2.map (fun x => (resetStep env x).1)).flatten :=
            List.mem_flatten.mpr ⟨_, List.mem_map_of_mem _ hb, resetStep_printed_reset hq he⟩
          simp [cleanup, hdb, hcb, hcd, hco, hp, hf, hdl, List.mem_append, hm]

/-- A concrete environment whose setup phase succeeds entirely while every
branch deletion and every worktree lookup fails. -/
def envAllOkSetup : CleanupEnv :=
  ⟨Except.ok "main", Except.ok "main", Except.ok (), Except.ok (), Except.ok (),
   Except.ok (["dead"], ["wt"]), fun _ => Except.error "lost",
   fun _ => Except.ok (), fun _ => Except.error "boom", ""⟩

/-- Witness for C8: with a fully successful setup, a failing worktree lookup
and a failing branch deletion, the run still returns without error, the
deletion is attempted, and both failures are reported. -/
theorem c8_setup_fatal_items_isolated_witness :
    (cleanup envAllOkSetup).result = Except.ok ()
      ∧ Step.deleteOp "dead" ∈ (cleanup envAllOkSetup).ops
      ∧ ("Error deleting branch " ++ "dead" ++ ": " ++ "boom")
          ∈ (cleanup envAllOkSetup).printed
      ∧ ("Error finding worktree for branch " ++ "wt" ++ ": " ++ "lost")
          ∈ (cleanup envAllOkSetup).printed :=
  ⟨(c8_setup_fatal_items_isolated envAllOkSetup).1.mpr
      ⟨"main", "main", rfl, rfl, fun h => absurd rfl h, rfl, rfl, ⟨(["dead"], ["wt"]), rfl⟩⟩,
   (((c8_setup_fatal_items_isolated envAllOkSetup).2
      ⟨"main", "main", rfl, rfl, fun h => absurd rfl h, rfl, rfl, ⟨(["dead"], ["wt"]), rfl⟩⟩
      (["dead"], ["wt"]) rfl).2.1 "dead" (by simp)),
   (((c8_setup_fatal_items_isolated envAllOkSetup).2
      ⟨"main", "main", rfl, rfl, fun h => absurd rfl h, rfl, rfl, ⟨(["dead"], ["wt"]), rfl⟩⟩
      (["dead"], ["wt"]) rfl).2.2.1 "dead" (by simp) "boom" rfl),
   (((c8_setup_fatal_items_isolated envAllOkSetup).2
      ⟨"main", "main", rfl, rfl, fun h => absurd rfl h, rfl, rfl, ⟨(["dead"], ["wt"]), rfl⟩⟩
      (["dead"], ["wt"]) rfl).2.2.2.1 "wt" (by simp) "lost" rfl)⟩

/-- C10: the checkout subprocess is invoked during a cleanup run exactly when
both branch resolutions succeed and the current branch differs from the
default branch; in particular, when they coincide no checkout step happens at
all. -/
theorem c10_checkout_skipped (env : CleanupEnv) :
    Step.checkoutOp ∈ (cleanup env).ops ↔
      ∃ d c, env.defaultBranch = Except.ok d ∧ env.currentBranch = Except.ok c
        ∧ c ≠ d := by
  rcases hdb : env.defaultBranch with e | d
  · simp [cleanup, hdb]
  rcases hcb : env.currentBranch with e | c
  · simp [cleanup, hdb, hcb]
  by_cases hcd : c = d
  · subst hcd
    rcases hp : env.pull with e | u
    · simp [cleanup, hdb, hcb, hp]
    rcases hf : env.fetchPrune with e | u
    · simp [cleanup, hdb, hcb, hp, hf]
    rcases hdl : env.deletedBranches with e | bs
    · simp [cleanup, hdb, hcb, hp, hf, hdl]
    · simp [cleanup, hdb, hcb, hp, hf, hdl, resetStep_no_checkout,
        deleteStep_no_checkout]
  · rcases hco : env.checkout with e | u
    · simp [cleanup, hdb, hcb, hco, hcd]
    rcases hp : env.pull with e | u'
    · simp [cleanup, hdb, hcb, hco, hcd, hp]
    rcases hf : env.fetchPrune with e | u'
    · simp [cleanup, hdb, hcb, hco, hcd, hp, hf]
    rcases hdl : env.deletedBranches with e | bs
    · simp [cleanup, hdb, hcb, hco, hcd, hp, hf, hdl]
    · simp [cleanup, hdb, hcb, hco, hcd, hp, hf, hdl]
